import Mathlib

/-
Verification of the anonn-backend prediction-market engine.

The embedding below mirrors:
  - the Market mongoose model (positionSchema, marketSchema, the isExpired
    virtual and the updatePrices method),
  - the createMarket and tradeMarket controller handlers in
    src/controllers/pollController.js,
  - mongoose save-time schema validation (shares min 0, prices bounded to
    the unit interval), which rejects the whole document and leaves the
    stored state untouched on failure.

Monetary and share amounts are modelled as rationals, timestamps as
integers (comparison is all the code does with dates).
-/

namespace Anonn

/-- The two outcomes of a binary market, the `option` enum of positionSchema. -/
inductive TOption where
  | yes
  | no
deriving DecidableEq, Repr

instance : BEq TOption := instBEqOfDecidableEq

/-- One entry of positionSchema: user, option, shares, averagePrice, investedAmount. -/
structure Position where
  user : Nat
  option : TOption
  shares : ℚ
  averagePrice : ℚ
  investedAmount : ℚ
deriving DecidableEq, Repr

/-- One entry of the marketSchema options array: label and totalShares (default 0). -/
structure OptionEntry where
  label : String
  totalShares : ℚ
deriving DecidableEq, Repr

/-- The marketSchema fields the trading engine reads or writes. -/
structure Market where
  company : Nat
  creator : Nat
  question : String
  options : List OptionEntry
  yesPrice : ℚ
  noPrice : ℚ
  totalLiquidity : ℚ
  totalVolume : ℚ
  positions : List Position
  expiresAt : ℤ
  isResolved : Bool
  isActive : Bool
deriving DecidableEq, Repr

/-- The isExpired virtual: new Date() > this.expiresAt (strict comparison). -/
def Market.isExpired (m : Market) (now : ℤ) : Bool :=
  now > m.expiresAt

/-- The updatePrices method: sum shares of yes positions and of no positions
(filter + reduce over the positions array); if the total is positive set
yesPrice and noPrice to the ratios, otherwise leave the prices untouched. -/
def Market.updatePrices (m : Market) : Market :=
  let yesShares :=
    (m.positions.filter (fun p => p.option == TOption.yes)).foldl
      (fun sum p => sum + p.shares) 0
  let noShares :=
    (m.positions.filter (fun p => p.option == TOption.no)).foldl
      (fun sum p => sum + p.shares) 0
  let total := yesShares + noShares
  if total > 0 then
    { m with yesPrice := yesShares / total, noPrice := noShares / total }
  else
    m

/-- Schema validation of one position subdocument: shares has min 0. -/
def Position.validB (p : Position) : Bool :=
  decide (0 ≤ p.shares)

/-- Mongoose save-time validation of the whole market document: every
position subdocument passes, and yesPrice and noPrice respect their
min 0 / max 1 bounds. -/
def Market.validB (m : Market) : Bool :=
  m.positions.all Position.validB
    && decide (0 ≤ m.yesPrice) && decide (m.yesPrice ≤ 1)
    && decide (0 ≤ m.noPrice) && decide (m.noPrice ≤ 1)

/-- The request body of the trade endpoint: option, shares, action, plus the
authenticated user and the current time. -/
inductive TAction where
  | buy
  | sell
deriving DecidableEq, Repr

structure TradeReq where
  now : ℤ
  user : Nat
  option : TOption
  shares : ℚ
  action : TAction
deriving DecidableEq, Repr

/-- The responses tradeMarket can produce: the 404 market-not-found error,
the 400 market-is-closed error, a mongoose validation error surfaced by
save via next(error), or the 200 success. -/
inductive TradeResponse where
  | marketNotFound
  | marketClosed
  | validationError
  | success
deriving DecidableEq, Repr

/-- The in-memory mutation tradeMarket performs before save: on buy, read
the pre-trade price of the chosen option, compute cost = shares * price,
push a fresh position, add cost to totalVolume, then updatePrices; on sell
the handler has no branch, so nothing changes. -/
def applyTrade (m : Market) (r : TradeReq) : Market :=
  match r.action with
  | TAction.buy =>
      let price := if r.option == TOption.yes then m.yesPrice else m.noPrice
      let cost := r.shares * price
      let m1 : Market :=
        { m with
          positions := m.positions ++
            [{ user := r.user, option := r.option, shares := r.shares,
               averagePrice := price, investedAmount := cost }],
          totalVolume := m.totalVolume + cost }
      m1.updatePrices
  | TAction.sell => m

/-- tradeMarket on an existing market: reject when expired or resolved,
otherwise mutate in memory and save; save validates the document and on
failure persists nothing, leaving the stored market unchanged. -/
def tradeStep (m : Market) (r : TradeReq) : TradeResponse × Market :=
  if m.isExpired r.now || m.isResolved then
    (TradeResponse.marketClosed, m)
  else
    let m1 := applyTrade m r
    if m1.validB then (TradeResponse.success, m1)
    else (TradeResponse.validationError, m)

/-- The full tradeMarket handler, findById included: a missing market is a
404 and touches nothing. -/
def tradeMarket (db : Option Market) (r : TradeReq) : TradeResponse × Option Market :=
  match db with
  | none => (TradeResponse.marketNotFound, none)
  | some m => ((tradeStep m r).1, some (tradeStep m r).2)

/-- The createMarket handler: a binary market with Yes and No options at 0
totalShares; every other engine field takes its schema default (prices 0.5,
volume and liquidity 0, empty positions, not resolved, active). -/
def createMarket (company creator : Nat) (question : String) (expiresAt : ℤ) : Market :=
  { company := company
    creator := creator
    question := question
    options := [{ label := "Yes", totalShares := 0 }, { label := "No", totalShares := 0 }]
    yesPrice := 1/2
    noPrice := 1/2
    totalLiquidity := 0
    totalVolume := 0
    positions := []
    expiresAt := expiresAt
    isResolved := false
    isActive := true }

/-- Run a sequence of trade requests against a stored market, persisting
whatever each save leaves behind. -/
def runTrades (m : Market) (rs : List TradeReq) : Market :=
  rs.foldl (fun acc r => (tradeStep acc r).2) m

/-- Outcome share total implied by the positions array, as updatePrices
computes it for one option. -/
def sharesOf (ps : List Position) (o : TOption) : ℚ :=
  (ps.filter (fun p => p.option == o)).foldl (fun sum p => sum + p.shares) 0

/-- Combined share total over both outcomes. -/
def totalShares (m : Market) : ℚ :=
  sharesOf m.positions TOption.yes + sharesOf m.positions TOption.no

/-- Position entries of one user on one outcome. -/
def entriesOf (ps : List Position) (u : Nat) (o : TOption) : List Position :=
  ps.filter (fun p => p.user == u && p.option == o)

/-- A user's aggregate holdings in one outcome: the sum over all position
entries of that user and option. -/
def userShares (m : Market) (u : Nat) (o : TOption) : ℚ :=
  ((entriesOf m.positions u o).map Position.shares).sum

/-- A user's aggregate invested amount (cost basis) in one outcome. -/
def userInvested (m : Market) (u : Nat) (o : TOption) : ℚ :=
  ((entriesOf m.positions u o).map Position.investedAmount).sum

/-- Number of stored position entries for a (user, option) pair. -/
def positionCount (m : Market) (u : Nat) (o : TOption) : Nat :=
  (entriesOf m.positions u o).length

/-- The pre-trade price tradeMarket reads for the chosen option. -/
def tradePrice (m : Market) (o : TOption) : ℚ :=
  if o == TOption.yes then m.yesPrice else m.noPrice

/-- The position entry a buy pushes onto the positions array. -/
def newPos (m : Market) (r : TradeReq) : Position :=
  { user := r.user, option := r.option, shares := r.shares,
    averagePrice := tradePrice m r.option,
    investedAmount := r.shares * tradePrice m r.option }

/-- The pricing invariant: prices are the share ratios implied by the
positions array, with the 0.5 / 0.5 schema default while no shares exist. -/
def PriceInv (m : Market) : Prop :=
  (totalShares m = 0 → m.yesPrice = 1/2 ∧ m.noPrice = 1/2) ∧
  (totalShares m ≠ 0 →
    m.yesPrice = sharesOf m.positions TOption.yes / totalShares m ∧
    m.noPrice = sharesOf m.positions TOption.no / totalShares m)

/-- The resolvedOption enum of marketSchema. -/
inductive ResOutcome where
  | yes
  | no
  | invalid
deriving DecidableEq, Repr

/-- A settlement payout record: who gets paid, on which side, how much. -/
structure PayoutRecord where
  user : Nat
  option : TOption
  amount : ℚ
deriving DecidableEq, Repr

inductive ResolveError where
  | alreadyResolved
deriving DecidableEq, Repr

/-- Modelled from the spec: the repository declares the resolution fields of
marketSchema (resolvedOption, resolvedAt, resolver, isResolved) but ships no
Resolution component, so the Resolve contract of spec section 4.4 is embedded
from its words: resolving an already-resolved market is an error; on a yes or
no outcome every position on the winning side pays out shares * 1.0 and every
losing-side position pays 0; on invalid every position is refunded its
investedAmount; the market then transitions to Resolved. -/
def payoutFor (outcome : ResOutcome) (p : Position) : PayoutRecord :=
  match outcome with
  | ResOutcome.invalid =>
      { user := p.user, option := p.option, amount := p.investedAmount }
  | ResOutcome.yes =>
      { user := p.user, option := p.option,
        amount := if p.option == TOption.yes then p.shares * 1 else 0 }
  | ResOutcome.no =>
      { user := p.user, option := p.option,
        amount := if p.option == TOption.no then p.shares * 1 else 0 }

/-- Modelled from the spec: the Resolve operation of section 4.4, absent from
the repository; it rejects an already-resolved market, pays every position
through payoutFor and transitions the market to Resolved. -/
def resolveMarket (m : Market) (outcome : ResOutcome) :
    Except ResolveError (List PayoutRecord × Market) :=
  if m.isResolved then Except.error ResolveError.alreadyResolved
  else Except.ok (m.positions.map (payoutFor outcome), { m with isResolved := true })

/-- A fresh demo market used by the concrete scenarios. -/
def mDemo : Market := createMarket 7 3 "Will it ship" 100

def buyYes10 : TradeReq :=
  { now := 0, user := 1, option := TOption.yes, shares := 10, action := TAction.buy }

def buyNo10 : TradeReq :=
  { now := 0, user := 2, option := TOption.no, shares := 10, action := TAction.buy }

/-- State after buying 10 yes shares on the fresh demo market. -/
def mAfterYes : Market := (tradeStep mDemo buyYes10).2

/-- State after then buying 10 no shares. -/
def mAfterNo : Market := (tradeStep mAfterYes buyNo10).2

def buyYes3 : TradeReq :=
  { now := 0, user := 1, option := TOption.yes, shares := 3, action := TAction.buy }

/-- State where user 1 holds 3 yes shares. -/
def mHold3 : Market := (tradeStep mDemo buyYes3).2

def sellYes5 : TradeReq :=
  { now := 0, user := 1, option := TOption.yes, shares := 5, action := TAction.sell }

def zeroBuy : TradeReq :=
  { now := 0, user := 1, option := TOption.yes, shares := 0, action := TAction.buy }

def negBuy : TradeReq :=
  { now := 0, user := 1, option := TOption.yes, shares := -2, action := TAction.buy }

/-- A trade arriving after the demo market's expiry. -/
def lateTrade : TradeReq :=
  { now := 200, user := 1, option := TOption.yes, shares := 1, action := TAction.buy }

/-- State after user 1 buys yes twice (10 shares, then 3 more). -/
def mTwoBuys : Market := (tradeStep mAfterYes buyYes3).2

section Lemmas

lemma foldl_add_shares (l : List Position) (init : ℚ) :
    l.foldl (fun sum p => sum + p.shares) init = init + (l.map Position.shares).sum := by
  induction l generalizing init with
  | nil => simp
  | cons p l ih => simp [List.foldl_cons, ih, add_assoc]

lemma sharesOf_eq_sum (ps : List Position) (o : TOption) :
    sharesOf ps o = ((ps.filter (fun p => p.option == o)).map Position.shares).sum := by
  simpa using foldl_add_shares (ps.filter (fun p => p.option == o)) 0

lemma sharesOf_append_single (ps : List Position) (p : Position) (o : TOption) :
    sharesOf (ps ++ [p]) o
      = sharesOf ps o + (if p.option = o then p.shares else 0) := by
  by_cases h : p.option = o <;>
    simp [sharesOf_eq_sum, List.filter_append, h]

lemma sharesOf_nonneg (ps : List Position) (o : TOption)
    (h : ∀ p ∈ ps, 0 ≤ p.shares) : 0 ≤ sharesOf ps o := by
  rw [sharesOf_eq_sum]
  apply List.sum_nonneg
  intro x hx
  rcases List.mem_map.mp hx with ⟨p, hp, rfl⟩
  exact h p (List.mem_of_mem_filter hp)

lemma validB_iff (m : Market) :
    m.validB = true ↔
      (∀ p ∈ m.positions, 0 ≤ p.shares) ∧
        0 ≤ m.yesPrice ∧ m.yesPrice ≤ 1 ∧ 0 ≤ m.noPrice ∧ m.noPrice ≤ 1 := by
  simp [Market.validB, Position.validB, List.all_eq_true, and_assoc]

/-- updatePrices, rewritten through sharesOf. -/
lemma updatePrices_eq (m : Market) :
    m.updatePrices =
      if sharesOf m.positions TOption.yes + sharesOf m.positions TOption.no > 0 then
        { m with
          yesPrice := sharesOf m.positions TOption.yes /
            (sharesOf m.positions TOption.yes + sharesOf m.positions TOption.no),
          noPrice := sharesOf m.positions TOption.no /
            (sharesOf m.positions TOption.yes + sharesOf m.positions TOption.no) }
      else m :=
  rfl

lemma updatePrices_positions (m : Market) : (m.updatePrices).positions = m.positions := by
  rw [updatePrices_eq]; split <;> rfl

lemma updatePrices_totalVolume (m : Market) :
    (m.updatePrices).totalVolume = m.totalVolume := by
  rw [updatePrices_eq]; split <;> rfl

lemma updatePrices_options (m : Market) : (m.updatePrices).options = m.options := by
  rw [updatePrices_eq]; split <;> rfl

lemma applyTrade_buy (m : Market) (r : TradeReq) (hb : r.action = TAction.buy) :
    applyTrade m r =
      Market.updatePrices
        { m with positions := m.positions ++ [newPos m r],
                 totalVolume := m.totalVolume + r.shares * tradePrice m r.option } := by
  obtain ⟨now, u, o, s, a⟩ := r
  cases a with
  | buy => rfl
  | sell => exact absurd hb (by simp)

lemma applyTrade_sell (m : Market) (r : TradeReq) (hs : r.action = TAction.sell) :
    applyTrade m r = m := by
  obtain ⟨now, u, o, s, a⟩ := r
  cases a with
  | buy => exact absurd hs (by simp)
  | sell => rfl

lemma tradeStep_closed (m : Market) (r : TradeReq)
    (h : (m.isExpired r.now || m.isResolved) = true) :
    tradeStep m r = (TradeResponse.marketClosed, m) := by
  simp [tradeStep, h]

lemma tradeStep_open_valid (m : Market) (r : TradeReq)
    (h : (m.isExpired r.now || m.isResolved) = false)
    (hv : (applyTrade m r).validB = true) :
    tradeStep m r = (TradeResponse.success, applyTrade m r) := by
  simp [tradeStep, h, hv]

lemma tradeStep_open_invalid (m : Market) (r : TradeReq)
    (h : (m.isExpired r.now || m.isResolved) = false)
    (hv : (applyTrade m r).validB = false) :
    tradeStep m r = (TradeResponse.validationError, m) := by
  simp [tradeStep, h, hv]

lemma tradeStep_snd_cases (m : Market) (r : TradeReq) :
    (tradeStep m r).2 = m ∨
      ((tradeStep m r).2 = applyTrade m r ∧ (applyTrade m r).validB = true) := by
  by_cases h : (m.isExpired r.now || m.isResolved) = true
  · left; rw [tradeStep_closed m r h]
  · rcases hv : (applyTrade m r).validB with _ | _
    · left; rw [tradeStep_open_invalid m r (by simpa using h) hv]
    · right
      rw [tradeStep_open_valid m r (by simpa using h) hv]
      exact ⟨rfl, rfl⟩

lemma tradeStep_snd_validB (m : Market) (r : TradeReq) (h : m.validB = true) :
    ((tradeStep m r).2).validB = true := by
  rcases tradeStep_snd_cases m r with hc | ⟨he, hv⟩
  · rw [hc]; exact h
  · rw [he]; exact hv

lemma runTrades_inv (P : Market → Prop)
    (hstep : ∀ m r, P m → P ((tradeStep m r).2)) :
    ∀ (rs : List TradeReq) (m : Market), P m → P (runTrades m rs) := by
  intro rs
  induction rs with
  | nil => intro m hm; exact hm
  | cons r rs ih =>
      intro m hm
      exact ih _ (hstep m r hm)

lemma runTrades_append_single (m : Market) (rs : List TradeReq) (r : TradeReq) :
    runTrades m (rs ++ [r]) = (tradeStep (runTrades m rs) r).2 := by
  simp [runTrades, List.foldl_append]

lemma createMarket_validB (c cr : Nat) (q : String) (e : ℤ) :
    (createMarket c cr q e).validB = true := by
  simp [createMarket, Market.validB, Position.validB]
  norm_num

lemma applyTrade_buy_positions (m : Market) (r : TradeReq) (hb : r.action = TAction.buy) :
    (applyTrade m r).positions = m.positions ++ [newPos m r] := by
  rw [applyTrade_buy m r hb, updatePrices_positions]

lemma applyTrade_buy_totalVolume (m : Market) (r : TradeReq) (hb : r.action = TAction.buy) :
    (applyTrade m r).totalVolume = m.totalVolume + r.shares * tradePrice m r.option := by
  rw [applyTrade_buy m r hb, updatePrices_totalVolume]

lemma tradePrice_nonneg (m : Market) (o : TOption) (hv : m.validB = true) :
    0 ≤ tradePrice m o := by
  obtain ⟨-, hy, -, hn, -⟩ := (validB_iff m).mp hv
  unfold tradePrice
  split <;> assumption

lemma applyTrade_valid_shares_nonneg (m : Market) (r : TradeReq)
    (hb : r.action = TAction.buy) (hval : (applyTrade m r).validB = true) :
    0 ≤ r.shares := by
  have h := ((validB_iff _).mp hval).1
  rw [applyTrade_buy_positions m r hb] at h
  have := h (newPos m r) (by simp)
  simpa [newPos] using this

lemma totalVolume_step_le (m : Market) (r : TradeReq) (hv : m.validB = true) :
    m.totalVolume ≤ ((tradeStep m r).2).totalVolume := by
  rcases tradeStep_snd_cases m r with hc | ⟨he, hval⟩
  · rw [hc]
  · rw [he]
    cases hb : r.action with
    | sell => rw [applyTrade_sell m r hb]
    | buy =>
        rw [applyTrade_buy_totalVolume m r hb]
        have h1 : 0 ≤ r.shares := applyTrade_valid_shares_nonneg m r hb hval
        have h2 : 0 ≤ tradePrice m r.option := tradePrice_nonneg m r.option hv
        nlinarith

lemma sum_sharesOf_append_single (ps : List Position) (p : Position) :
    sharesOf (ps ++ [p]) TOption.yes + sharesOf (ps ++ [p]) TOption.no
      = (sharesOf ps TOption.yes + sharesOf ps TOption.no) + p.shares := by
  rcases hopt : p.option with _ | _ <;>
    simp [sharesOf_append_single, hopt] <;> ring

lemma priceInv_step (m : Market) (r : TradeReq)
    (hv : m.validB = true) (hp : PriceInv m) :
    PriceInv ((tradeStep m r).2) := by
  rcases tradeStep_snd_cases m r with hc | ⟨he, hval⟩
  · rw [hc]; exact hp
  · rw [he]
    cases hb : r.action with
    | sell => rw [applyTrade_sell m r hb]; exact hp
    | buy =>
        have hps : 0 ≤ r.shares := applyTrade_valid_shares_nonneg m r hb hval
        have hm0 : 0 ≤ totalShares m := by
          have h := ((validB_iff m).mp hv).1
          have h1 := sharesOf_nonneg m.positions TOption.yes h
          have h2 := sharesOf_nonneg m.positions TOption.no h
          unfold totalShares; linarith
        rw [applyTrade_buy m r hb]
        set m1 : Market :=
          { m with positions := m.positions ++ [newPos m r],
                   totalVolume := m.totalVolume + r.shares * tradePrice m r.option } with hm1
        have htot : sharesOf m1.positions TOption.yes + sharesOf m1.positions TOption.no
            = totalShares m + r.shares := by
          have := sum_sharesOf_append_single m.positions (newPos m r)
          simpa [hm1, newPos, totalShares] using this
        rw [updatePrices_eq m1]
        split
        · next hgt =>
            constructor
            · intro h0
              exfalso
              have : totalShares
                  { m1 with
                    yesPrice := sharesOf m1.positions TOption.yes /
                      (sharesOf m1.positions TOption.yes + sharesOf m1.positions TOption.no),
                    noPrice := sharesOf m1.positions TOption.no /
                      (sharesOf m1.positions TOption.yes + sharesOf m1.positions TOption.no) }
                  = sharesOf m1.positions TOption.yes + sharesOf m1.positions TOption.no := rfl
              rw [this] at h0
              exact absurd h0 (ne_of_gt hgt)
            · intro hne
              exact ⟨rfl, rfl⟩
        · next hle =>
            have hT0 : totalShares m1 = 0 := by
              push_neg at hle
              unfold totalShares
              linarith [htot, hps, hm0]
            constructor
            · intro h0
              have hTm : totalShares m = 0 := by
                have : totalShares m + r.shares = 0 := by
                  rw [← htot]; exact hT0
                linarith
              have := hp.1 hTm
              exact ⟨this.1, this.2⟩
            · intro hne
              exact absurd hT0 hne

lemma updatePrices_validB (m : Market) (hv : m.validB = true) :
    (m.updatePrices).validB = true := by
  obtain ⟨hpos, hy0, hy1, hn0, hn1⟩ := (validB_iff m).mp hv
  rw [updatePrices_eq]
  split
  · next hgt =>
      have hY : 0 ≤ sharesOf m.positions TOption.yes := sharesOf_nonneg _ _ hpos
      have hN : 0 ≤ sharesOf m.positions TOption.no := sharesOf_nonneg _ _ hpos
      refine (validB_iff _).mpr ⟨hpos, ?_, ?_, ?_, ?_⟩
      · exact div_nonneg hY (le_of_lt hgt)
      · exact (div_le_one hgt).mpr (by linarith)
      · exact div_nonneg hN (le_of_lt hgt)
      · exact (div_le_one hgt).mpr (by linarith)
  · exact hv

lemma applyTrade_buy_validB (m : Market) (r : TradeReq) (hv : m.validB = true)
    (hb : r.action = TAction.buy) (hnn : 0 ≤ r.shares) :
    (applyTrade m r).validB = true := by
  obtain ⟨hpos, hy0, hy1, hn0, hn1⟩ := (validB_iff m).mp hv
  rw [applyTrade_buy m r hb]
  apply updatePrices_validB
  refine (validB_iff _).mpr ⟨?_, hy0, hy1, hn0, hn1⟩
  intro p hp
  rcases List.mem_append.mp hp with h | h
  · exact hpos p h
  · have hp' : p = newPos m r := by simpa using h
    subst hp'
    simpa [newPos] using hnn

lemma tradeStep_success_snd (m : Market) (r : TradeReq)
    (h : (tradeStep m r).1 = TradeResponse.success) :
    (tradeStep m r).2 = applyTrade m r := by
  by_cases hc : (m.isExpired r.now || m.isResolved) = true
  · rw [tradeStep_closed m r hc] at h
    exact absurd h (by simp)
  · have hc' : (m.isExpired r.now || m.isResolved) = false := by simpa using hc
    rcases hval : (applyTrade m r).validB with _ | _
    · rw [tradeStep_open_invalid m r hc' hval] at h
      exact absurd h (by simp)
    · rw [tradeStep_open_valid m r hc' hval]

lemma tradeStep_options (m : Market) (r : TradeReq) :
    (tradeStep m r).2.options = m.options := by
  rcases tradeStep_snd_cases m r with hc | ⟨he, -⟩
  · rw [hc]
  · rw [he]
    cases hb : r.action with
    | buy => rw [applyTrade_buy m r hb, updatePrices_options]
    | sell => rw [applyTrade_sell m r hb]

lemma createMarket_priceInv (c cr : Nat) (q : String) (e : ℤ) :
    PriceInv (createMarket c cr q e) := by
  constructor
  · intro h
    exact ⟨rfl, rfl⟩
  · intro hne
    exfalso
    apply hne
    simp [totalShares, sharesOf, createMarket]

lemma runTrades_validB (c cr : Nat) (q : String) (e : ℤ) (rs : List TradeReq) :
    (runTrades (createMarket c cr q e) rs).validB = true :=
  runTrades_inv (fun m => m.validB = true)
    (fun m r h => tradeStep_snd_validB m r h) rs _ (createMarket_validB c cr q e)

lemma runTrades_good (c cr : Nat) (q : String) (e : ℤ) (rs : List TradeReq) :
    (runTrades (createMarket c cr q e) rs).validB = true ∧
      PriceInv (runTrades (createMarket c cr q e) rs) :=
  runTrades_inv (fun m => m.validB = true ∧ PriceInv m)
    (fun m r h => ⟨tradeStep_snd_validB m r h.1, priceInv_step m r h.1 h.2⟩) rs _
    ⟨createMarket_validB c cr q e, createMarket_priceInv c cr q e⟩

lemma entriesOf_append_self (ps : List Position) (p : Position) :
    entriesOf (ps ++ [p]) p.user p.option = entriesOf ps p.user p.option ++ [p] := by
  simp [entriesOf, List.filter_append]

lemma sharesOf_cons (p : Position) (ps : List Position) (o : TOption) :
    sharesOf (p :: ps) o = (if p.option = o then p.shares else 0) + sharesOf ps o := by
  by_cases h : p.option = o <;> simp [sharesOf_eq_sum, List.filter_cons, h]

lemma yes_payout_sum (ps : List Position) :
    (((ps.map (payoutFor ResOutcome.yes)).filter
        (fun rec => rec.option == TOption.yes)).map PayoutRecord.amount).sum
      = sharesOf ps TOption.yes := by
  induction ps with
  | nil => simp [sharesOf]
  | cons p ps ih =>
      by_cases h : p.option = TOption.yes <;>
        simp [sharesOf_cons, h, ih, List.filter_cons, payoutFor]

lemma mAfterYes_eq :
    mAfterYes =
      { company := 7, creator := 3, question := "Will it ship",
        options := [{ label := "Yes", totalShares := 0 }, { label := "No", totalShares := 0 }],
        yesPrice := 1, noPrice := 0, totalLiquidity := 0, totalVolume := 5,
        positions := [{ user := 1, option := TOption.yes, shares := 10,
                        averagePrice := 1/2, investedAmount := 5 }],
        expiresAt := 100, isResolved := false, isActive := true } := by
  simp [mAfterYes, tradeStep, mDemo, buyYes10, createMarket, applyTrade,
    Market.updatePrices, Market.validB, Market.isExpired, Position.validB] <;> norm_num

lemma mAfterNo_eq :
    mAfterNo =
      { company := 7, creator := 3, question := "Will it ship",
        options := [{ label := "Yes", totalShares := 0 }, { label := "No", totalShares := 0 }],
        yesPrice := 1/2, noPrice := 1/2, totalLiquidity := 0, totalVolume := 5,
        positions := [{ user := 1, option := TOption.yes, shares := 10,
                        averagePrice := 1/2, investedAmount := 5 },
                      { user := 2, option := TOption.no, shares := 10,
                        averagePrice := 0, investedAmount := 0 }],
        expiresAt := 100, isResolved := false, isActive := true } := by
  rw [mAfterNo, mAfterYes_eq]
  simp [tradeStep, buyNo10, applyTrade, Market.updatePrices, Market.validB,
    Market.isExpired, Position.validB] <;> norm_num

lemma mHold3_eq :
    mHold3 =
      { company := 7, creator := 3, question := "Will it ship",
        options := [{ label := "Yes", totalShares := 0 }, { label := "No", totalShares := 0 }],
        yesPrice := 1, noPrice := 0, totalLiquidity := 0, totalVolume := 3/2,
        positions := [{ user := 1, option := TOption.yes, shares := 3,
                        averagePrice := 1/2, investedAmount := 3/2 }],
        expiresAt := 100, isResolved := false, isActive := true } := by
  simp [mHold3, tradeStep, mDemo, buyYes3, createMarket, applyTrade,
    Market.updatePrices, Market.validB, Market.isExpired, Position.validB] <;> norm_num

lemma mTwoBuys_eq :
    mTwoBuys =
      { company := 7, creator := 3, question := "Will it ship",
        options := [{ label := "Yes", totalShares := 0 }, { label := "No", totalShares := 0 }],
        yesPrice := 1, noPrice := 0, totalLiquidity := 0, totalVolume := 8,
        positions := [{ user := 1, option := TOption.yes, shares := 10,
                        averagePrice := 1/2, investedAmount := 5 },
                      { user := 1, option := TOption.yes, shares := 3,
                        averagePrice := 1, investedAmount := 3 }],
        expiresAt := 100, isResolved := false, isActive := true } := by
  rw [mTwoBuys, mAfterYes_eq]
  simp [tradeStep, buyYes3, applyTrade, Market.updatePrices, Market.validB,
    Market.isExpired, Position.validB] <;> norm_num

lemma entriesOf_append_newPos (m : Market) (r : TradeReq) :
    entriesOf (m.positions ++ [newPos m r]) r.user r.option
      = entriesOf m.positions r.user r.option ++ [newPos m r] :=
  entriesOf_append_self m.positions (newPos m r)

lemma applyTrade_neg_invalid (m : Market) (r : TradeReq) (hb : r.action = TAction.buy)
    (hneg : r.shares < 0) : (applyTrade m r).validB = false := by
  rcases hval : (applyTrade m r).validB with _ | _
  · rfl
  · exact absurd (applyTrade_valid_shares_nonneg m r hb hval) (not_le.mpr hneg)

end Lemmas

section Claims

/-- Claim C1: after any sequence of trades on a created market, the spot
prices equal the share ratio over the post-trade outcome share totals
(yesPrice = yes/(yes+no), noPrice = no/(yes+no)); while yes+no = 0 the
prices are one half each; consequently yesPrice + noPrice = 1 and each
price lies in the unit interval. -/
theorem c1_spot_price_ratio (c cr : Nat) (q : String) (e : ℤ) (rs : List TradeReq)
    (m : Market) (hm : m = runTrades (createMarket c cr q e) rs) :
    (totalShares m = 0 → m.yesPrice = 1/2 ∧ m.noPrice = 1/2) ∧
    (totalShares m ≠ 0 →
      m.yesPrice = sharesOf m.positions TOption.yes / totalShares m ∧
      m.noPrice = sharesOf m.positions TOption.no / totalShares m) ∧
    m.yesPrice + m.noPrice = 1 ∧
    0 ≤ m.yesPrice ∧ m.yesPrice ≤ 1 ∧ 0 ≤ m.noPrice ∧ m.noPrice ≤ 1 := by
  obtain ⟨hv, h0, hr⟩ :
      m.validB = true ∧
        (totalShares m = 0 → m.yesPrice = 1/2 ∧ m.noPrice = 1/2) ∧
        (totalShares m ≠ 0 →
          m.yesPrice = sharesOf m.positions TOption.yes / totalShares m ∧
          m.noPrice = sharesOf m.positions TOption.no / totalShares m) := by
    subst hm
    obtain ⟨hv, hp⟩ := runTrades_good c cr q e rs
    exact ⟨hv, hp.1, hp.2⟩
  obtain ⟨-, hy0, hy1, hn0, hn1⟩ := (validB_iff m).mp hv
  refine ⟨h0, hr, ?_, hy0, hy1, hn0, hn1⟩
  by_cases hT : totalShares m = 0
  · obtain ⟨e1, e2⟩ := h0 hT
    rw [e1, e2]
    norm_num
  · obtain ⟨e1, e2⟩ := hr hT
    rw [e1, e2, div_add_div_same]
    have hts : sharesOf m.positions TOption.yes + sharesOf m.positions TOption.no
        = totalShares m := rfl
    rw [hts, div_self hT]

/-- Claim C1 witness: on the freshly created demo market (zero shares on
both sides) the prices are one half each and sum to one. -/
theorem c1_witness :
    (createMarket 7 3 "Will it ship" 100).yesPrice = 1/2 ∧
      (createMarket 7 3 "Will it ship" 100).yesPrice
        + (createMarket 7 3 "Will it ship" 100).noPrice = 1 :=
  ⟨((c1_spot_price_ratio 7 3 "Will it ship" 100 [] _ rfl).1
      (by simp [totalShares, sharesOf, runTrades, createMarket])).1,
    (c1_spot_price_ratio 7 3 "Will it ship" 100 [] _ rfl).2.2.1⟩

/-- Claim C6: totalVolume is monotonically non-decreasing: for every market
reachable from creation and every further trade request, the persisted
totalVolume after the operation is at least its value before. -/
theorem c6_totalVolume_monotone (c cr : Nat) (q : String) (e : ℤ)
    (rs : List TradeReq) (r : TradeReq) :
    (runTrades (createMarket c cr q e) rs).totalVolume
      ≤ (runTrades (createMarket c cr q e) (rs ++ [r])).totalVolume := by
  rw [runTrades_append_single]
  exact totalVolume_step_le _ r (runTrades_validB c cr q e rs)

/-- Claim C9: trading never writes the options array: after any sequence of
trades the options entries keep exactly the value createMarket gave them,
label Yes and No with totalShares 0. -/
theorem c9_options_untouched (c cr : Nat) (q : String) (e : ℤ) (rs : List TradeReq) :
    (runTrades (createMarket c cr q e) rs).options
      = [{ label := "Yes", totalShares := 0 }, { label := "No", totalShares := 0 }] :=
  runTrades_inv
    (fun m => m.options
      = [{ label := "Yes", totalShares := 0 }, { label := "No", totalShares := 0 }])
    (fun m r h => by dsimp only; rw [tradeStep_options]; exact h) rs _ rfl

/-- Claim C2: a buy of a positive amount on an open market succeeds; the
stake charged is the amount times the pre-trade spot price of the chosen
outcome; the outcome's aggregate share count, the caller's holdings and the
caller's cost basis grow accordingly, and totalVolume grows by the stake;
and the concrete two-buy scenario: on a fresh market buying 10 yes costs 5
and moves the prices to 1 and 0, after which buying 10 no costs 0 and
returns the prices to one half each. -/
theorem c2_buy_effects :
    (∀ (m : Market) (r : TradeReq),
        m.validB = true →
        (m.isExpired r.now || m.isResolved) = false →
        r.action = TAction.buy → 0 < r.shares →
        (tradeStep m r).1 = TradeResponse.success ∧
        (tradeStep m r).2.totalVolume = m.totalVolume + r.shares * tradePrice m r.option ∧
        sharesOf (tradeStep m r).2.positions r.option
          = sharesOf m.positions r.option + r.shares ∧
        userShares (tradeStep m r).2 r.user r.option
          = userShares m r.user r.option + r.shares ∧
        userInvested (tradeStep m r).2 r.user r.option
          = userInvested m r.user r.option + r.shares * tradePrice m r.option) ∧
    tradePrice mDemo TOption.yes = 1/2 ∧
    mAfterYes.totalVolume = 5 ∧
    sharesOf mAfterYes.positions TOption.yes = 10 ∧
    sharesOf mAfterYes.positions TOption.no = 0 ∧
    mAfterYes.yesPrice = 1 ∧ mAfterYes.noPrice = 0 ∧
    tradePrice mAfterYes TOption.no = 0 ∧
    mAfterNo.totalVolume = 5 ∧
    sharesOf mAfterNo.positions TOption.yes = 10 ∧
    sharesOf mAfterNo.positions TOption.no = 10 ∧
    mAfterNo.yesPrice = 1/2 ∧ mAfterNo.noPrice = 1/2 := by
  constructor
  · intro m r hv hopen hb hpos
    have hval : (applyTrade m r).validB = true :=
      applyTrade_buy_validB m r hv hb (le_of_lt hpos)
    have hstep := tradeStep_open_valid m r hopen hval
    have h2 : (tradeStep m r).2 = applyTrade m r := by rw [hstep]
    have hposn := applyTrade_buy_positions m r hb
    refine ⟨by rw [hstep], ?_, ?_, ?_, ?_⟩
    · rw [h2, applyTrade_buy_totalVolume m r hb]
    · rw [h2, hposn, sharesOf_append_single]
      simp [newPos]
    · rw [userShares, userShares, h2, hposn, entriesOf_append_newPos,
        List.map_append, List.sum_append]
      simp [newPos]
    · rw [userInvested, userInvested, h2, hposn, entriesOf_append_newPos,
        List.map_append, List.sum_append]
      simp [newPos]
  · refine ⟨?_, ?_, ?_, ?_, ?_, ?_, ?_, ?_, ?_, ?_, ?_, ?_⟩
    · simp [tradePrice, mDemo, createMarket]
    · rw [mAfterYes_eq]
    · rw [mAfterYes_eq]; simp [sharesOf, List.filter_cons]
    · rw [mAfterYes_eq]; simp [sharesOf, List.filter_cons]
    · rw [mAfterYes_eq]
    · rw [mAfterYes_eq]
    · rw [mAfterYes_eq]; simp [tradePrice]
    · rw [mAfterNo_eq]
    · rw [mAfterNo_eq]; simp [sharesOf, List.filter_cons]
    · rw [mAfterNo_eq]; simp [sharesOf, List.filter_cons]
    · rw [mAfterNo_eq]
    · rw [mAfterNo_eq]

/-- Claim C2 witness: the first demo buy (10 yes shares on the fresh market)
succeeds and charges 10 times the pre-trade yes price into totalVolume. -/
theorem c2_witness :
    (tradeStep mDemo buyYes10).1 = TradeResponse.success ∧
      (tradeStep mDemo buyYes10).2.totalVolume
        = mDemo.totalVolume + 10 * tradePrice mDemo TOption.yes := by
  have h := c2_buy_effects.1 mDemo buyYes10
    (createMarket_validB 7 3 "Will it ship" 100) rfl rfl (by norm_num [buyYes10])
  exact ⟨h.1, h.2.1⟩

/-- Claim C3 (amended): the handler has no sell branch: a sell request on an
open, schema-valid market is a silent no-op that returns the success
response and leaves the stored market (positions included) unchanged, for
any requested amount and any holdings; no insufficient-shares error
exists. -/
theorem c3_sell_is_noop (m : Market) (r : TradeReq) (hsell : r.action = TAction.sell)
    (hv : m.validB = true) (hopen : (m.isExpired r.now || m.isResolved) = false) :
    tradeStep m r = (TradeResponse.success, m) := by
  have ha : applyTrade m r = m := applyTrade_sell m r hsell
  have hval : (applyTrade m r).validB = true := by rw [ha]; exact hv
  rw [tradeStep_open_valid m r hopen hval, ha]

/-- Claim C3 counterexample: user 1 holds only 3 yes shares, yet a sell of 5
yes shares returns the success response with the state unchanged, not an
insufficient-shares error. -/
theorem c3_counterexample :
    userShares mHold3 1 TOption.yes = 3 ∧
      tradeStep mHold3 sellYes5 = (TradeResponse.success, mHold3) := by
  refine ⟨?_, ?_⟩
  · rw [mHold3_eq]; simp [userShares, entriesOf, List.filter_cons]
  · simp [mHold3, sellYes5, tradeStep, mDemo, buyYes3, createMarket, applyTrade,
      Market.updatePrices, Market.validB, Market.isExpired, Position.validB] <;> norm_num

/-- Claim C3 witness: the amended no-op behaviour at the concrete
insufficient-holdings input. -/
theorem c3_witness :
    tradeStep mHold3 sellYes5 = (TradeResponse.success, mHold3) :=
  c3_sell_is_noop mHold3 sellYes5 rfl
    (tradeStep_snd_validB mDemo buyYes3 (createMarket_validB 7 3 "Will it ship" 100))
    (by rw [mHold3_eq]; rfl)

/-- Claim C4 (amended): the handler returns market-not-found for a missing
market and market-closed for a resolved or expired market (expiry is
strict: a trade at exactly expiresAt passes the check), both without
mutating; but there is no amount validation: a zero-amount buy passes every
check, mutates the market and is persisted, and a negative-amount buy is
stopped only by save-time schema validation, leaving the stored state
unchanged. -/
theorem c4_validation_behaviour :
    (∀ r : TradeReq, tradeMarket none r = (TradeResponse.marketNotFound, none)) ∧
    (∀ (m : Market) (r : TradeReq),
        (m.isExpired r.now || m.isResolved) = true →
        tradeStep m r = (TradeResponse.marketClosed, m)) ∧
    (∀ m : Market, m.isExpired m.expiresAt = false) ∧
    (∀ (m : Market) (r : TradeReq),
        m.validB = true → (m.isExpired r.now || m.isResolved) = false →
        r.action = TAction.buy → r.shares < 0 →
        tradeStep m r = (TradeResponse.validationError, m)) ∧
    (∀ (m : Market) (r : TradeReq),
        m.validB = true → (m.isExpired r.now || m.isResolved) = false →
        r.action = TAction.buy → r.shares = 0 →
        (tradeStep m r).1 = TradeResponse.success ∧
          (tradeStep m r).2.positions = m.positions ++ [newPos m r]) := by
  refine ⟨fun r => rfl, fun m r h => tradeStep_closed m r h, ?_, ?_, ?_⟩
  · intro m
    simp [Market.isExpired]
  · intro m r hv hopen hb hneg
    exact tradeStep_open_invalid m r hopen (applyTrade_neg_invalid m r hb hneg)
  · intro m r hv hopen hb hzero
    have hval : (applyTrade m r).validB = true :=
      applyTrade_buy_validB m r hv hb (le_of_eq hzero.symm)
    have hstep := tradeStep_open_valid m r hopen hval
    refine ⟨by rw [hstep], ?_⟩
    rw [hstep]
    exact applyTrade_buy_positions m r hb

/-- Claim C4 counterexample: a buy of 0 shares (shareAmount ≤ 0) on an open
market is not rejected with an invalid-amount error: it succeeds and
mutates the market by appending a position entry. -/
theorem c4_counterexample :
    (tradeStep mDemo zeroBuy).1 = TradeResponse.success ∧
      (tradeStep mDemo zeroBuy).2.positions.length = 1 := by
  refine ⟨?_, ?_⟩ <;>
    simp [tradeStep, mDemo, zeroBuy, createMarket, applyTrade,
      Market.updatePrices, Market.validB, Market.isExpired, Position.validB] <;> norm_num

/-- Claim C4 witness: a trade arriving after expiry is rejected as
market-closed with the state unchanged. -/
theorem c4_witness :
    tradeStep mDemo lateTrade = (TradeResponse.marketClosed, mDemo) :=
  c4_validation_behaviour.2.1 mDemo lateTrade rfl

/-- Claim C5 (amended): every successful buy appends a fresh position entry
for the caller and outcome instead of accumulating into an existing one:
the number of stored entries for that (user, outcome) pair grows by one on
each buy, so a user holds as many position records as buys made. -/
theorem c5_buy_appends_position (m : Market) (r : TradeReq)
    (hs : (tradeStep m r).1 = TradeResponse.success) (hb : r.action = TAction.buy) :
    positionCount (tradeStep m r).2 r.user r.option
      = positionCount m r.user r.option + 1 := by
  have h2 := tradeStep_success_snd m r hs
  rw [positionCount, positionCount, h2, applyTrade_buy_positions m r hb,
    entriesOf_append_newPos, List.length_append]
  rfl

/-- Claim C5 counterexample: after user 1 buys yes twice on the same market,
two distinct open position records exist for the (market, user 1, yes)
pair, refuting the at-most-one-position invariant. -/
theorem c5_counterexample : positionCount mTwoBuys 1 TOption.yes = 2 := by
  rw [mTwoBuys_eq]
  simp [positionCount, entriesOf, List.filter_cons]

/-- Claim C5 witness: the first demo buy appends one entry for (user 1, yes). -/
theorem c5_witness :
    positionCount mAfterYes 1 TOption.yes = positionCount mDemo 1 TOption.yes + 1 :=
  c5_buy_appends_position mDemo buyYes10
    (by simp [tradeStep, mDemo, buyYes10, createMarket, applyTrade,
      Market.updatePrices, Market.validB, Market.isExpired, Position.validB]) rfl

/-- Claim C7: resolving a non-resolved market as yes pays every yes-side
position exactly its share count (unit redemption), pays every no-side
position 0, makes total yes-side payouts equal total yes-side shares, and
transitions the market to Resolved. -/
theorem c7_resolve_yes_settlement (m : Market) (hres : m.isResolved = false) :
    ∃ pl m2,
      resolveMarket m ResOutcome.yes = Except.ok (pl, m2) ∧
      List.Forall₂
        (fun (p : Position) (rec : PayoutRecord) =>
          rec.user = p.user ∧ rec.option = p.option ∧
          rec.amount = (if p.option = TOption.yes then p.shares else 0))
        m.positions pl ∧
      ((pl.filter (fun rec => rec.option == TOption.yes)).map PayoutRecord.amount).sum
        = sharesOf m.positions TOption.yes ∧
      (∀ rec ∈ pl, rec.option = TOption.no → rec.amount = 0) ∧
      m2.isResolved = true := by
  refine ⟨m.positions.map (payoutFor ResOutcome.yes), { m with isResolved := true },
    ?_, ?_, yes_payout_sum m.positions, ?_, rfl⟩
  · simp [resolveMarket, hres]
  · rw [List.forall₂_map_right_iff]
    apply List.forall₂_same.mpr
    intro p hp
    by_cases h : p.option = TOption.yes <;> simp [payoutFor, h]
  · intro rec hrec hno
    rcases List.mem_map.mp hrec with ⟨p, hp, rfl⟩
    have hpo : p.option = TOption.no := by simpa [payoutFor] using hno
    simp [payoutFor, hpo]

/-- Claim C7 witness: resolving the demo market (10 yes shares held by user
1, 10 no shares held by user 2) as yes. -/
theorem c7_witness :
    ∃ pl m2,
      resolveMarket mAfterNo ResOutcome.yes = Except.ok (pl, m2) ∧
      List.Forall₂
        (fun (p : Position) (rec : PayoutRecord) =>
          rec.user = p.user ∧ rec.option = p.option ∧
          rec.amount = (if p.option = TOption.yes then p.shares else 0))
        mAfterNo.positions pl ∧
      ((pl.filter (fun rec => rec.option == TOption.yes)).map PayoutRecord.amount).sum
        = sharesOf mAfterNo.positions TOption.yes ∧
      (∀ rec ∈ pl, rec.option = TOption.no → rec.amount = 0) ∧
      m2.isResolved = true :=
  c7_resolve_yes_settlement mAfterNo (by rw [mAfterNo_eq])

/-- Claim C10: a buy with a negative share amount is never persisted: the
position schema's shares lower bound fails save-time validation, the whole
update is rejected, the stored market is unchanged and the caller gets an
error response; consequently every stored position of a reachable market
has non-negative shares. -/
theorem c10_invalid_buys_never_persisted :
    (∀ (m : Market) (r : TradeReq),
        m.validB = true → r.action = TAction.buy → r.shares < 0 →
        (tradeStep m r).2 = m ∧ (tradeStep m r).1 ≠ TradeResponse.success) ∧
    (∀ (c cr : Nat) (q : String) (e : ℤ) (rs : List TradeReq),
        ∀ p ∈ (runTrades (createMarket c cr q e) rs).positions, 0 ≤ p.shares) := by
  constructor
  · intro m r hv hb hneg
    by_cases hc : (m.isExpired r.now || m.isResolved) = true
    · rw [tradeStep_closed m r hc]
      exact ⟨rfl, by simp⟩
    · have hc' : (m.isExpired r.now || m.isResolved) = false := by simpa using hc
      rw [tradeStep_open_invalid m r hc' (applyTrade_neg_invalid m r hb hneg)]
      exact ⟨rfl, by simp⟩
  · intro c cr q e rs p hp
    exact ((validB_iff _).mp (runTrades_validB c cr q e rs)).1 p hp

/-- Claim C10 witness: a buy of minus 2 shares on the fresh demo market
leaves the stored market unchanged and does not return success. -/
theorem c10_witness :
    (tradeStep mDemo negBuy).2 = mDemo ∧
      (tradeStep mDemo negBuy).1 ≠ TradeResponse.success :=
  c10_invalid_buys_never_persisted.1 mDemo negBuy
    (createMarket_validB 7 3 "Will it ship" 100) rfl (by norm_num [negBuy])

end Claims

end Anonn
